import Mathlib

/-!
Verification development for the job lifecycle and execution engine of the
ab-transcript repository: the filesystem-backed job store
(src/server/job_manager.py), the pipeline orchestrator
(src/server/processor.py), the scheduler (src/server/processing_queue.py)
and the speaker-assignment merge (src/audio/diarization.py).

The Python code is shallowly embedded: a job namespace (directory) becomes a
JobState record whose Option-valued fields model the presence of artifact
files; the whole jobs directory becomes an association list from job id to
JobState; fallible operations return Except; timestamps produced by
datetime.now() are threaded as an opaque String parameter.  Python float
times are modelled as rationals (their ordering is all the merge uses).
-/

/-! ## Basic enumerations (job_manager.py, JobStage and JobStatus) -/

/-- Processing stages for a job (class JobStage). -/
inductive Stage where
  | not_started
  | transcribing
  | transcription_complete
  | diarizing
  | diarization_complete
  | summarizing
  | complete
  | failed
deriving DecidableEq, Repr

/-- String value of a stage, as stored in metadata (JobStage.value). -/
def Stage.val : Stage → String
  | .not_started => "not_started"
  | .transcribing => "transcribing"
  | .transcription_complete => "transcription_complete"
  | .diarizing => "diarizing"
  | .diarization_complete => "diarization_complete"
  | .summarizing => "summarizing"
  | .complete => "complete"
  | .failed => "failed"

/-- Overall job status (class JobStatus). -/
inductive Status where
  | queued
  | processing
  | completed
  | failed
deriving DecidableEq, Repr

/-- String value of a status, as stored in metadata (JobStatus.value). -/
def Status.val : Status → String
  | .queued => "queued"
  | .processing => "processing"
  | .completed => "completed"
  | .failed => "failed"

/-! ## Data carried by artifacts -/

/-- One Whisper transcription segment: a dict with keys start, end, text and
optionally speaker.  The speaker field is none exactly when the dict has no
speaker key. -/
structure Seg where
  tStart : ℚ
  tEnd : ℚ
  text : String
  speaker : Option String
deriving DecidableEq, Repr

/-- One diarization turn: a (start_time, end_time, speaker_label) tuple. -/
abbrev Dia := ℚ × ℚ × String

/-- Content of transcription.json as written by _process_transcription. -/
structure TranscriptionData where
  text : String
  segments : List Seg
  language : String
deriving DecidableEq, Repr

/-- Content of diarization.json as written by _process_diarization. -/
structure DiarizationData where
  segments_with_speakers : List Seg
  speaker_segments : List Dia
deriving DecidableEq, Repr

/-- Content of progress.json as written by update_progress. -/
structure ProgressData where
  progress : ℚ
  message : String
  updated_at : String
deriving DecidableEq, Repr

/-- Processing options bag (metadata options dict).  A field holding none
models an absent key, so that dict.get with a default is getD.  For
llm_api_key the empty string is falsy in Python, which the accessors below
take into account. -/
structure Options where
  enable_diarization : Option Bool := none
  enable_summarization : Option Bool := none
  llm_api_key : Option String := none
  llm_model : Option String := none
  summary_model : Option String := none
  llm_api_base_url : Option String := none
deriving DecidableEq, Repr

/-- Job metadata record (metadata.json). -/
structure Metadata where
  id : String
  original_filename : String
  file_size : ℕ
  options : Options
  created_at : String
  updated_at : String
  stage : String
  status : String
  completed_at : Option String := none
  failed_at : Option String := none
deriving DecidableEq, Repr

/-- State of one job namespace: which artifact files exist and their content.
An Option field is none exactly when the corresponding file is absent. -/
structure JobState where
  metadata : Option Metadata := none
  audio : Bool := false
  transcription : Option TranscriptionData := none
  diarization : Option DiarizationData := none
  summary : Option String := none
  error : Option String := none
  progress : Option ProgressData := none
deriving DecidableEq, Repr

/-- The jobs directory: an association list from job id to namespace state. -/
abbrev Store := List (String × JobState)

/-! ## Stable descending sort

Python list.sort is stable, also with reverse=True: elements with equal keys
keep their original relative order.  Stable sorts with the same key agree
extensionally, so the insertion sort below is a faithful model of the two
sort calls in the source (the overlap sort in assign_speakers_to_segments and
the created_at sort in list_jobs). -/

/-- Insert x, which occurs before every element of the list in the original
order, into an already descending-sorted list, keeping stability: x goes in
front of every element whose key does not exceed the key of x. -/
def insDesc {α κ : Type} [LinearOrder κ] (key : α → κ) (x : α) : List α → List α
  | [] => [x]
  | y :: ys => if key y ≤ key x then x :: y :: ys else y :: insDesc key x ys

/-- Stable sort by key in descending order (list.sort with reverse=True). -/
def sortDescBy {α κ : Type} [LinearOrder κ] (key : α → κ) : List α → List α
  | [] => []
  | x :: xs => insDesc key x (sortDescBy key xs)

/-- First element of the list attaining the maximal key, if any: the
specification-side description of what a stable descending sort places at the
head. -/
def firstMax {α κ : Type} [LinearOrder κ] (key : α → κ) : List α → Option α
  | [] => none
  | x :: xs =>
    match firstMax key xs with
    | none => some x
    | some y => if key x < key y then some y else some x

theorem length_insDesc {α κ : Type} [LinearOrder κ] (key : α → κ) (x : α) :
    ∀ l : List α, (insDesc key x l).length = l.length + 1 := by
  intro l
  induction l with
  | nil => rfl
  | cons y ys ih =>
    by_cases h : key y ≤ key x <;> simp [insDesc, h, ih]

theorem length_sortDescBy {α κ : Type} [LinearOrder κ] (key : α → κ) :
    ∀ l : List α, (sortDescBy key l).length = l.length := by
  intro l
  induction l with
  | nil => rfl
  | cons x xs ih => simp [sortDescBy, length_insDesc, ih]

theorem mem_insDesc {α κ : Type} [LinearOrder κ] (key : α → κ) (x a : α) :
    ∀ l : List α, a ∈ insDesc key x l ↔ a = x ∨ a ∈ l := by
  intro l
  induction l with
  | nil => simp [insDesc]
  | cons y ys ih =>
    by_cases h : key y ≤ key x
    · simp [insDesc, h]
    · simp [insDesc, h, ih]
      tauto

theorem mem_sortDescBy {α κ : Type} [LinearOrder κ] (key : α → κ) (a : α) :
    ∀ l : List α, a ∈ sortDescBy key l ↔ a ∈ l := by
  intro l
  induction l with
  | nil => simp [sortDescBy]
  | cons x xs ih => simp [sortDescBy, mem_insDesc, ih]

theorem pairwise_insDesc {α κ : Type} [LinearOrder κ] (key : α → κ) (x : α) :
    ∀ l : List α, l.Pairwise (fun a b => key b ≤ key a) →
      (insDesc key x l).Pairwise (fun a b => key b ≤ key a) := by
  intro l
  induction l with
  | nil => intro _; simp [insDesc]
  | cons y ys ih =>
    intro hp
    rcases List.pairwise_cons.mp hp with ⟨hy, hys⟩
    by_cases h : key y ≤ key x
    · simp only [insDesc, if_pos h]
      refine List.pairwise_cons.mpr ⟨?_, hp⟩
      intro b hb
      rcases List.mem_cons.mp hb with rfl | hb
      · exact h
      · exact le_trans (hy b hb) h
    · simp only [insDesc, if_neg h]
      refine List.pairwise_cons.mpr ⟨?_, ih hys⟩
      intro b hb
      rcases (mem_insDesc key x b ys).mp hb with rfl | hb
      · exact le_of_not_le h
      · exact hy b hb

theorem pairwise_sortDescBy {α κ : Type} [LinearOrder κ] (key : α → κ) :
    ∀ l : List α, (sortDescBy key l).Pairwise (fun a b => key b ≤ key a) := by
  intro l
  induction l with
  | nil => simp [sortDescBy]
  | cons x xs ih => exact pairwise_insDesc key x _ ih

theorem head?_insDesc {α κ : Type} [LinearOrder κ] (key : α → κ) (x : α) :
    ∀ l : List α, (insDesc key x l).head? =
      match l.head? with
      | none => some x
      | some y => if key y ≤ key x then some x else some y := by
  intro l
  cases l with
  | nil => rfl
  | cons y ys =>
    by_cases h : key y ≤ key x <;> simp [insDesc, h]

/-- The head of a stable descending sort is the first element attaining the
maximal key. -/
theorem head?_sortDescBy {α κ : Type} [LinearOrder κ] (key : α → κ) :
    ∀ l : List α, (sortDescBy key l).head? = firstMax key l := by
  intro l
  induction l with
  | nil => rfl
  | cons x xs ih =>
    simp only [sortDescBy, firstMax, head?_insDesc, ih]
    cases hfm : firstMax key xs with
    | none => simp
    | some y =>
      by_cases h : key y ≤ key x
      · simp [h, not_lt_of_le h]
      · simp [h, lt_of_not_le h]

theorem firstMax_eq_none_iff {α κ : Type} [LinearOrder κ] (key : α → κ) :
    ∀ l : List α, firstMax key l = none ↔ l = [] := by
  intro l
  cases l with
  | nil => simp [firstMax]
  | cons x xs =>
    simp only [firstMax]
    cases firstMax key xs with
    | none => simp
    | some y => by_cases h : key x < key y <;> simp [h]

/-- Characterisation of firstMax: the witness is the first-seen maximum, i.e.
it splits the list into a strict-smaller prefix, itself, and a no-larger
remainder. -/
theorem firstMax_spec {α κ : Type} [LinearOrder κ] (key : α → κ) :
    ∀ (l : List α) (p : α), firstMax key l = some p →
      ∃ l₁ l₂, l = l₁ ++ p :: l₂ ∧ (∀ q ∈ l₁, key q < key p) ∧
        (∀ q ∈ l, key q ≤ key p) := by
  intro l
  induction l with
  | nil => intro p h; cases h
  | cons x xs ih =>
    intro p h
    cases hfm : firstMax key xs with
    | none =>
      have hxs : xs = [] := (firstMax_eq_none_iff key xs).mp hfm
      subst hxs
      simp only [firstMax] at h
      cases h
      exact ⟨[], [], rfl, by simp, by simp⟩
    | some y =>
      simp only [firstMax, hfm] at h
      rcases ih y hfm with ⟨l₁, l₂, hsplit, hpre, hall⟩
      by_cases hxy : key x < key y
      · simp only [if_pos hxy] at h
        cases h
        refine ⟨x :: l₁, l₂, by simp [hsplit], ?_, ?_⟩
        · intro q hq
          rcases List.mem_cons.mp hq with rfl | hq
          · exact hxy
          · exact hpre q hq
        · intro q hq
          rcases List.mem_cons.mp hq with rfl | hq
          · exact le_of_lt hxy
          · exact hall q hq
      · simp only [if_neg hxy] at h
        cases h
        refine ⟨[], xs, rfl, by simp, ?_⟩
        intro q hq
        rcases List.mem_cons.mp hq with rfl | hq
        · exact le_refl _
        · exact le_trans (hall q hq) (le_of_not_lt hxy)

/-! ## Speaker-assignment merge (diarization.py, assign_speakers_to_segments)

The static method walks the Whisper segments; for each it collects the
strictly positive temporal overlaps with every diarization turn (in input
order), sorts them descending by duration with the stable list sort, and
assigns the label of the head, or "UNKNOWN" when no positive overlap exists.
When the diarization list is empty the input list is returned unchanged. -/

/-- Overlap computation for one (transcript segment, diarization turn) pair:
some (duration, label) when the overlap duration is strictly positive. -/
def overlapEntry (seg : Seg) (d : Dia) : Option (ℚ × String) :=
  let overlap_start := max seg.tStart d.1
  let overlap_stop := min seg.tEnd d.2.1
  let overlap_duration := max 0 (overlap_stop - overlap_start)
  if 0 < overlap_duration then some (overlap_duration, d.2.2) else none

/-- The list built by the inner loop: positive overlaps in diarization-input
order. -/
def segOverlaps (seg : Seg) (dias : List Dia) : List (ℚ × String) :=
  dias.filterMap (overlapEntry seg)

/-- Label selection of the source: sort the overlaps descending by duration
(stable) and take the first label, defaulting to "UNKNOWN". -/
def chosenLabel (seg : Seg) (dias : List Dia) : String :=
  match (sortDescBy Prod.fst (segOverlaps seg dias)).head? with
  | some p => p.2
  | none => "UNKNOWN"

/-- Body of the per-segment loop: copy the segment and set its speaker key. -/
def assignOne (seg : Seg) (dias : List Dia) : Seg :=
  { seg with speaker := some (chosenLabel seg dias) }

/-- PyannoteDiarizer.assign_speakers_to_segments (also exposed as the
module-level wrapper of the same name). -/
def assign_speakers_to_segments (whisper_segments : List Seg)
    (diarization_segments : List Dia) : List Seg :=
  if diarization_segments = [] then whisper_segments
  else whisper_segments.map (fun seg => assignOne seg diarization_segments)

/-- Claim-side label selection: the label of the first diarization overlap
entry attaining the maximal duration, "UNKNOWN" when none is positive. -/
def claimLabel (seg : Seg) (dias : List Dia) : String :=
  match firstMax Prod.fst (segOverlaps seg dias) with
  | some p => p.2
  | none => "UNKNOWN"

theorem chosenLabel_eq_claimLabel (seg : Seg) (dias : List Dia) :
    chosenLabel seg dias = claimLabel seg dias := by
  simp only [chosenLabel, claimLabel, head?_sortDescBy]

theorem segOverlaps_pos (seg : Seg) (dias : List Dia) :
    ∀ q ∈ segOverlaps seg dias, 0 < q.1 ∧ ∃ d ∈ dias,
      q = (max 0 (min seg.tEnd d.2.1 - max seg.tStart d.1), d.2.2) := by
  intro q hq
  simp only [segOverlaps, List.mem_filterMap] at hq
  rcases hq with ⟨d, hd, hentry⟩
  simp only [overlapEntry] at hentry
  by_cases hpos : 0 < max 0 (min seg.tEnd d.2.1 - max seg.tStart d.1)
  · rw [if_pos hpos] at hentry
    cases hentry
    exact ⟨hpos, d, hd, rfl⟩
  · rw [if_neg hpos] at hentry
    cases hentry

/-! ## Job store (job_manager.py, class JobManager)

A namespace (job directory) exists exactly when the association list has an
entry for the id.  Operations that the source implements with
_save_json_file or _save_text_file raise ValueError when the namespace is
missing; they are embedded with Except.  Operations guarded by get_metadata
silently no-op when metadata is missing, as in the source. -/

/-- Lookup of a job directory (first entry with the given id). -/
def getJob : Store → String → Option JobState
  | [], _ => none
  | (k, v) :: rest, id => if k = id then some v else getJob rest id

/-- Overwrite the state of an existing job directory; ids not present are
left untouched (writing into a missing namespace is handled by the callers,
which raise first). -/
def setJob : Store → String → JobState → Store
  | [], _, _ => []
  | (k, v) :: rest, id, js =>
    if k = id then (id, js) :: setJob rest id js else (k, v) :: setJob rest id js

/-- JobManager.job_exists. -/
def job_exists (st : Store) (id : String) : Bool :=
  (getJob st id).isSome

/-- JobManager._update_stage on one namespace: overwrites the stage field of
the metadata record (unconditionally, whatever the current stage) and bumps
updated_at; silently does nothing when metadata is absent. -/
def updateStageJS (js : JobState) (stage : Stage) (now : String) : JobState :=
  match js.metadata with
  | none => js
  | some m => { js with metadata := some { m with stage := stage.val, updated_at := now } }

/-- JobManager._update_status on one namespace: overwrites status, bumps
updated_at, stamps completed_at or failed_at. -/
def updateStatusJS (js : JobState) (status : Status) (now : String) : JobState :=
  match js.metadata with
  | none => js
  | some m =>
    { js with metadata := some ({ m with
        status := status.val
        updated_at := now
        completed_at := if status = .completed then some now else m.completed_at
        failed_at := if status = .failed then some now else m.failed_at }) }

/-- JobManager._update_timestamp on one namespace. -/
def updateTimestampJS (js : JobState) (now : String) : JobState :=
  match js.metadata with
  | none => js
  | some m => { js with metadata := some { m with updated_at := now } }

/-- JobManager.save_transcription on one namespace: write the artifact, then
advance the stage to transcription_complete. -/
def saveTranscriptionJS (js : JobState) (d : TranscriptionData) (now : String) : JobState :=
  updateStageJS { js with transcription := some d } .transcription_complete now

/-- JobManager.save_diarization on one namespace. -/
def saveDiarizationJS (js : JobState) (d : DiarizationData) (now : String) : JobState :=
  updateStageJS { js with diarization := some d } .diarization_complete now

/-- JobManager.save_summary on one namespace: write the artifact, set stage
complete and status completed. -/
def saveSummaryJS (js : JobState) (text : String) (now : String) : JobState :=
  updateStatusJS (updateStageJS { js with summary := some text } .complete now) .completed now

/-- JobManager.save_error on one namespace: write the artifact, set stage
failed and status failed. -/
def saveErrorJS (js : JobState) (msg : String) (now : String) : JobState :=
  updateStatusJS (updateStageJS { js with error := some msg } .failed now) .failed now

/-- JobManager.update_progress on one namespace: overwrite progress.json and
bump the metadata timestamp. -/
def updateProgressJS (js : JobState) (p : ℚ) (msg : String) (now : String) : JobState :=
  updateTimestampJS { js with progress := some ⟨p, msg, now⟩ } now

/-- JobManager.update_stage (the public one): update the stage, then derive a
status update from the new stage. -/
def updateStagePublicJS (js : JobState) (stage : Stage) (now : String) : JobState :=
  let js1 := updateStageJS js stage now
  if stage = .failed then updateStatusJS js1 .failed now
  else if stage = .complete then updateStatusJS js1 .completed now
  else if stage ≠ .not_started then updateStatusJS js1 .processing now
  else js1

/-- JobManager.get_metadata. -/
def get_metadata (st : Store) (id : String) : Option Metadata :=
  (getJob st id).bind (fun js => js.metadata)

/-- JobManager.get_transcription. -/
def get_transcription (st : Store) (id : String) : Option TranscriptionData :=
  (getJob st id).bind (fun js => js.transcription)

/-- JobManager.get_diarization. -/
def get_diarization (st : Store) (id : String) : Option DiarizationData :=
  (getJob st id).bind (fun js => js.diarization)

/-- JobManager.get_summary. -/
def get_summary (st : Store) (id : String) : Option String :=
  (getJob st id).bind (fun js => js.summary)

/-- JobManager.get_error. -/
def get_error (st : Store) (id : String) : Option String :=
  (getJob st id).bind (fun js => js.error)

/-- JobManager.get_progress. -/
def get_progress (st : Store) (id : String) : Option ProgressData :=
  (getJob st id).bind (fun js => js.progress)

/-- The ValueError message raised by _save_json_file and _save_text_file. -/
def noJobMsg (id : String) : String :=
  "Job " ++ id ++ " does not exist"

/-- JobManager.save_transcription: raises ValueError when the namespace is
missing. -/
def save_transcription (st : Store) (id : String) (d : TranscriptionData)
    (now : String) : Except String Store :=
  match getJob st id with
  | none => .error (noJobMsg id)
  | some js => .ok (setJob st id (saveTranscriptionJS js d now))

/-- JobManager.save_diarization. -/
def save_diarization (st : Store) (id : String) (d : DiarizationData)
    (now : String) : Except String Store :=
  match getJob st id with
  | none => .error (noJobMsg id)
  | some js => .ok (setJob st id (saveDiarizationJS js d now))

/-- JobManager.save_summary. -/
def save_summary (st : Store) (id : String) (text : String)
    (now : String) : Except String Store :=
  match getJob st id with
  | none => .error (noJobMsg id)
  | some js => .ok (setJob st id (saveSummaryJS js text now))

/-- JobManager.save_error. -/
def save_error (st : Store) (id : String) (msg : String)
    (now : String) : Except String Store :=
  match getJob st id with
  | none => .error (noJobMsg id)
  | some js => .ok (setJob st id (saveErrorJS js msg now))

/-- JobManager.update_progress. -/
def update_progress (st : Store) (id : String) (p : ℚ) (msg : String)
    (now : String) : Except String Store :=
  match getJob st id with
  | none => .error (noJobMsg id)
  | some js => .ok (setJob st id (updateProgressJS js p msg now))

/-- JobManager.update_stage (public): never raises; does nothing when the
metadata record is absent. -/
def update_stage (st : Store) (id : String) (stage : Stage) (now : String) : Store :=
  match getJob st id with
  | none => st
  | some js => setJob st id (updateStagePublicJS js stage now)

/-! ## Status derivation (JobManager._determine_current_status) -/

/-- JobManager._should_process_diarization: options.get("enable_diarization",
True), false when the metadata record is missing. -/
def shouldProcessDiarization (js : JobState) : Bool :=
  match js.metadata with
  | none => false
  | some m => m.options.enable_diarization.getD true

/-- JobManager._should_process_summary. -/
def shouldProcessSummary (js : JobState) : Bool :=
  match js.metadata with
  | none => false
  | some m => m.options.enable_summarization.getD true

/-- JobManager._determine_current_status on one existing namespace: derive
the status from which artifact files exist plus the options bag. -/
def determineStatusState (js : JobState) : Status :=
  if js.error.isSome then .failed
  else if js.summary.isSome ||
      (js.transcription.isSome && !shouldProcessDiarization js && !shouldProcessSummary js) then
    .completed
  else if js.transcription.isSome || js.progress.isSome then .processing
  else .queued

/-- JobManager._determine_current_status: failed when the namespace is gone. -/
def _determine_current_status (st : Store) (id : String) : Status :=
  match getJob st id with
  | none => .failed
  | some js => determineStatusState js

/-! ## listJobs (JobManager.list_jobs)

The source iterates over the job directories, recomputes the status of every
job that has a metadata record and persists the record (the comparison
current_status != metadata.get("status") pits a JobStatus enum member against
a plain string, so it is always true and the record is re-saved on every
pass; in particular it is persisted whenever the value differs), applies the
status filter, sorts by created_at descending and truncates.  The directory
listing is captured as the list of ids up front; the loop only rewrites
metadata files inside existing directories, so the listing is stable. -/

/-- Loop body of list_jobs, threading the store through the enumeration. -/
def listJobsGo (ids : List String) (st : Store) (filt : Option String)
    (now : String) : List Metadata × Store :=
  match ids with
  | [] => ([], st)
  | id :: rest =>
    match getJob st id with
    | none => listJobsGo rest st filt now
    | some js =>
      match js.metadata with
      | none => listJobsGo rest st filt now
      | some md =>
        let cur := determineStatusState js
        let md1 := { md with status := cur.val, updated_at := now }
        let st1 := setJob st id { js with metadata := some md1 }
        let r := listJobsGo rest st1 filt now
        match filt with
        | some f => if md1.status ≠ f then r else (md1 :: r.1, r.2)
        | none => (md1 :: r.1, r.2)

/-- JobManager.list_jobs: recompute and persist statuses, filter, sort by
created_at descending (stable), truncate to the limit.  Returns the listed
metadata records together with the updated store. -/
def list_jobs (st : Store) (filt : Option String) (limit : ℕ)
    (now : String) : List Metadata × Store :=
  let r := listJobsGo (st.map Prod.fst) st filt now
  ((sortDescBy Metadata.created_at r.1).take limit, r.2)

/-! ## Association-list lemmas -/

theorem getJob_setJob_self (id : String) (js' : JobState) :
    ∀ st : Store, getJob (setJob st id js') id = (getJob st id).map (fun _ => js') := by
  intro st
  induction st with
  | nil => rfl
  | cons p rest ih =>
    obtain ⟨k, v⟩ := p
    by_cases h : k = id
    · simp [setJob, getJob, h]
    · simp [setJob, getJob, h, ih]

theorem getJob_setJob_ne (a b : String) (js' : JobState) (hne : a ≠ b) :
    ∀ st : Store, getJob (setJob st a js') b = getJob st b := by
  intro st
  induction st with
  | nil => rfl
  | cons p rest ih =>
    obtain ⟨k, v⟩ := p
    by_cases h : k = a
    · simp [setJob, getJob, h, hne, ih]
    · by_cases h2 : k = b <;> simp [setJob, getJob, h, h2, ih, Ne.symm hne]

theorem keys_setJob (a : String) (js' : JobState) :
    ∀ st : Store, (setJob st a js').map Prod.fst = st.map Prod.fst := by
  intro st
  induction st with
  | nil => rfl
  | cons p rest ih =>
    obtain ⟨k, v⟩ := p
    by_cases h : k = a <;> simp [setJob, h, ih]

theorem getJob_isSome_mem_keys (id : String) :
    ∀ st : Store, (getJob st id).isSome → id ∈ st.map Prod.fst := by
  intro st
  induction st with
  | nil => intro h; cases h
  | cons p rest ih =>
    obtain ⟨k, v⟩ := p
    by_cases h : k = id
    · intro _; simp [h]
    · intro hs
      simp only [getJob, if_neg h] at hs
      simp [ih hs]

/-! ## Claim-side status derivation for C1 -/

/-- True exactly when an optional feature toggle is present and false. -/
def optFalse (o : Option Bool) : Bool :=
  match o with
  | some false => true
  | _ => false

/-- Status as a pure function of artifact presence plus the options bag, as
the specification words it: error present yields failed; otherwise summary
present, or transcription present while both optional stages are false in
the options, yields completed; otherwise transcription or progress present
yields processing; otherwise queued. -/
def statusFromArtifacts (errP summP transP progP : Bool) (opts : Options) : Status :=
  if errP then .failed
  else if summP || (transP && optFalse opts.enable_diarization
      && optFalse opts.enable_summarization) then .completed
  else if transP || progP then .processing
  else .queued

theorem determineStatusState_eq_spec (js : JobState) (md : Metadata)
    (hmd : js.metadata = some md) :
    determineStatusState js = statusFromArtifacts js.error.isSome js.summary.isSome
      js.transcription.isSome js.progress.isSome md.options := by
  have hd : (!shouldProcessDiarization js) = optFalse md.options.enable_diarization := by
    simp only [shouldProcessDiarization, hmd]
    cases hdo : md.options.enable_diarization with
    | none => rfl
    | some b => cases b <;> rfl
  have hs : (!shouldProcessSummary js) = optFalse md.options.enable_summarization := by
    simp only [shouldProcessSummary, hmd]
    cases hso : md.options.enable_summarization with
    | none => rfl
    | some b => cases b <;> rfl
  simp only [determineStatusState, statusFromArtifacts, ← hd, ← hs]

/-! ## listJobsGo lemmas -/

/-- The metadata record persisted for one job during a list_jobs pass. -/
def recomputedJS (js : JobState) (md : Metadata) (now : String) : JobState :=
  { js with metadata := some ({ md with
      status := (determineStatusState js).val, updated_at := now }) }

/-- Store evolution of the list_jobs loop, separated from the collected
records. -/
def listJobsStore (ids : List String) (st : Store) (now : String) : Store :=
  match ids with
  | [] => st
  | id :: rest =>
    match getJob st id with
    | none => listJobsStore rest st now
    | some js =>
      match js.metadata with
      | none => listJobsStore rest st now
      | some md => listJobsStore rest (setJob st id (recomputedJS js md now)) now

theorem listJobsGo_snd (filt : Option String) (now : String) :
    ∀ (ids : List String) (st : Store),
      (listJobsGo ids st filt now).2 = listJobsStore ids st now := by
  intro ids
  induction ids with
  | nil => intro st; rfl
  | cons a rest ih =>
    intro st
    cases hga : getJob st a with
    | none => simp only [listJobsGo, listJobsStore, hga]; exact ih st
    | some js =>
      cases hmd : js.metadata with
      | none => simp only [listJobsGo, listJobsStore, hga, hmd]; exact ih st
      | some md =>
        cases filt with
        | none =>
          simp only [listJobsGo, listJobsStore, hga, hmd, recomputedJS]
          exact ih _
        | some f =>
          simp only [listJobsGo, listJobsStore, hga, hmd, recomputedJS]
          by_cases hf : (determineStatusState js).val ≠ f
          · rw [if_pos hf]
            exact ih _
          · rw [if_neg hf]
            exact ih _

theorem listJobsStore_getJob_notMem (now : String) :
    ∀ (ids : List String) (id : String), id ∉ ids → ∀ st : Store,
      getJob (listJobsStore ids st now) id = getJob st id := by
  intro ids
  induction ids with
  | nil => intro id _ st; rfl
  | cons a rest ih =>
    intro id hnm st
    have hna : a ≠ id := fun h => hnm (h ▸ List.mem_cons_self a rest)
    have hnr : id ∉ rest := fun h => hnm (List.mem_cons_of_mem a h)
    cases hga : getJob st a with
    | none => simp only [listJobsStore, hga]; exact ih id hnr st
    | some js =>
      cases hmd : js.metadata with
      | none => simp only [listJobsStore, hga, hmd]; exact ih id hnr st
      | some md =>
        simp only [listJobsStore, hga, hmd]
        rw [ih id hnr, getJob_setJob_ne a id _ hna]

theorem listJobsStore_getJob_mem (now : String) :
    ∀ (ids : List String), ids.Nodup → ∀ (st : Store) (id : String) (js : JobState)
      (md : Metadata), id ∈ ids → getJob st id = some js → js.metadata = some md →
      getJob (listJobsStore ids st now) id = some (recomputedJS js md now) := by
  intro ids
  induction ids with
  | nil => intro _ st id js md hmem; cases hmem
  | cons a rest ih =>
    intro hnd st id js md hmem hget hmd
    have hnda : a ∉ rest := (List.nodup_cons.mp hnd).1
    have hndr : rest.Nodup := (List.nodup_cons.mp hnd).2
    by_cases hid : a = id
    · subst hid
      simp only [listJobsStore, hget, hmd]
      rw [listJobsStore_getJob_notMem now rest a hnda]
      rw [getJob_setJob_self, hget]
      rfl
    · have hmemr : id ∈ rest := by
        rcases List.mem_cons.mp hmem with h | h
        · exact absurd h.symm hid
        · exact h
      cases hga : getJob st a with
      | none => simp only [listJobsStore, hga]; exact ih hndr st id js md hmemr hget hmd
      | some jsa =>
        cases hmda : jsa.metadata with
        | none => simp only [listJobsStore, hga, hmda]; exact ih hndr st id js md hmemr hget hmd
        | some mda =>
          simp only [listJobsStore, hga, hmda]
          refine ih hndr _ id js md hmemr ?_ hmd
          rw [getJob_setJob_ne a id _ hid]
          exact hget

theorem listJobsGo_filter (f : String) (now : String) :
    ∀ (ids : List String) (st : Store) (md' : Metadata),
      md' ∈ (listJobsGo ids st (some f) now).1 → md'.status = f := by
  intro ids
  induction ids with
  | nil => intro st md' h; cases h
  | cons a rest ih =>
    intro st md' h
    cases hga : getJob st a with
    | none =>
      simp only [listJobsGo, hga] at h
      exact ih st md' h
    | some js =>
      cases hmd : js.metadata with
      | none =>
        simp only [listJobsGo, hga, hmd] at h
        exact ih st md' h
      | some md =>
        simp only [listJobsGo, hga, hmd] at h
        by_cases hf : (determineStatusState js).val ≠ f
        · rw [if_pos hf] at h
          exact ih _ md' h
        · rw [if_neg hf] at h
          rcases List.mem_cons.mp h with rfl | h
          · simpa using not_ne_iff.mp hf
          · exact ih _ md' h

/-! ## Claim C1 -/

/-- C1: for every job namespace containing a metadata record, the status
recomputed by list_jobs is a pure function of artifact presence plus the
options bag (error present yields failed; otherwise summary present, or
transcription present while both enable_diarization and enable_summarization
are false in the options, yields completed; otherwise transcription or
progress present yields processing; otherwise queued), independent of the
cached status field; list_jobs persists the recomputed status (in particular
whenever it differs from the cached one), applies the status filter, and
sorts by created_at descending. -/
theorem C1_listJobs_status_recompute (st : Store) (filt : Option String)
    (limit : ℕ) (now : String) (hnd : (st.map Prod.fst).Nodup) :
    (∀ (js : JobState) (md : Metadata), js.metadata = some md →
        determineStatusState js = statusFromArtifacts js.error.isSome js.summary.isSome
          js.transcription.isSome js.progress.isSome md.options) ∧
    (∀ (js : JobState) (md : Metadata) (s stg : String), js.metadata = some md →
        determineStatusState
            { js with metadata := some ({ md with status := s, stage := stg }) } =
          determineStatusState js) ∧
    (∀ (id : String) (js : JobState) (md : Metadata),
        getJob st id = some js → js.metadata = some md →
        getJob (list_jobs st filt limit now).2 id = some (recomputedJS js md now)) ∧
    (∀ (f : String) (md' : Metadata), filt = some f →
        md' ∈ (list_jobs st filt limit now).1 → md'.status = f) ∧
    ((list_jobs st filt limit now).1).Pairwise
      (fun a b => b.created_at ≤ a.created_at) := by
  refine ⟨?_, ?_, ?_, ?_, ?_⟩
  · intro js md hmd
    exact determineStatusState_eq_spec js md hmd
  · intro js md s stg hmd
    rw [determineStatusState_eq_spec _ ({ md with status := s, stage := stg }) rfl,
      determineStatusState_eq_spec js md hmd]
  · intro id js md hget hmd
    have hmem : id ∈ st.map Prod.fst :=
      getJob_isSome_mem_keys id st (by rw [hget]; rfl)
    simp only [list_jobs]
    rw [listJobsGo_snd]
    exact listJobsStore_getJob_mem now (st.map Prod.fst) hnd st id js md hmem hget hmd
  · intro f md' hfilt hmem
    subst hfilt
    simp only [list_jobs] at hmem
    have hmem2 : md' ∈ sortDescBy Metadata.created_at
        (listJobsGo (st.map Prod.fst) st (some f) now).1 :=
      List.take_subset _ _ hmem
    have hmem3 : md' ∈ (listJobsGo (st.map Prod.fst) st (some f) now).1 :=
      (mem_sortDescBy Metadata.created_at md' _).mp hmem2
    exact listJobsGo_filter f now (st.map Prod.fst) st md' hmem3
  · simp only [list_jobs]
    exact (pairwise_sortDescBy Metadata.created_at _).sublist (List.take_sublist _ _)

/-- Fixed example metadata record used by concrete witnesses. -/
def mdEx : Metadata :=
  { id := "j1", original_filename := "a.wav", file_size := 3, options := {},
    created_at := "2024-01-01T00:00:00", updated_at := "2024-01-01T00:00:00",
    stage := "not_started", status := "queued" }

/-- Fixed example namespace state used by concrete witnesses. -/
def jsEx : JobState := { metadata := some mdEx, audio := true }

/-- Witness for C1 at a concrete one-job store. -/
theorem C1_witness :
    (([("j1", jsEx)] : Store).map Prod.fst).Nodup ∧
    getJob (list_jobs [("j1", jsEx)] none 100 "t2").2 "j1" =
      some (recomputedJS jsEx mdEx "t2") := by
  refine ⟨by simp, ?_⟩
  exact (C1_listJobs_status_recompute [("j1", jsEx)] none 100 "t2"
    (by simp)).2.2.1 "j1" jsEx mdEx rfl rfl

/-! ## Claim C2 -/

/-- C2 counterexample input: one transcript segment, no speaker key. -/
def segEx : Seg := { tStart := 0, tEnd := 1, text := "hello", speaker := none }

/-- C2 counterexample: with an empty diarization list the source returns the
transcript segments unchanged (early return), so the resulting segment
carries no speaker label at all, where the claim demands the sentinel
"UNKNOWN" label; totality of the merge fails on this input. -/
theorem C2_empty_diarization_counterexample :
    assign_speakers_to_segments [segEx] [] = [segEx] ∧
    segEx.speaker = none ∧ segEx.speaker ≠ some "UNKNOWN" := by
  refine ⟨rfl, rfl, by decide⟩

/-- C2 (amended): for every nonempty diarization list the merge is total and
deterministic: the result replaces each transcript segment's speaker with
exactly one label, namely the label at the head of the stable descending
sort of the strictly positive overlaps, which equals the label of the
first-seen diarization overlap attaining the maximal duration, and equals
"UNKNOWN" exactly when no diarization segment overlaps positively. -/
theorem C2_assign_speakers (whisper : List Seg) (dias : List Dia) (hne : dias ≠ []) :
    assign_speakers_to_segments whisper dias =
      whisper.map (fun seg => { seg with speaker := some (chosenLabel seg dias) }) ∧
    (∀ seg : Seg, chosenLabel seg dias = claimLabel seg dias) ∧
    (∀ seg : Seg, segOverlaps seg dias = [] → chosenLabel seg dias = "UNKNOWN") ∧
    (∀ (seg : Seg) (q : ℚ × String), q ∈ segOverlaps seg dias → 0 < q.1 ∧ ∃ d ∈ dias,
        q = (max 0 (min seg.tEnd d.2.1 - max seg.tStart d.1), d.2.2)) ∧
    (∀ (seg : Seg) (p : ℚ × String), firstMax Prod.fst (segOverlaps seg dias) = some p →
        chosenLabel seg dias = p.2 ∧
        (∃ l₁ l₂, segOverlaps seg dias = l₁ ++ p :: l₂ ∧ (∀ q ∈ l₁, q.1 < p.1)) ∧
        (∀ q ∈ segOverlaps seg dias, q.1 ≤ p.1)) := by
  refine ⟨?_, ?_, ?_, ?_, ?_⟩
  · simp only [assign_speakers_to_segments, if_neg hne, assignOne]
  · intro seg
    exact chosenLabel_eq_claimLabel seg dias
  · intro seg h
    simp [chosenLabel, h, sortDescBy]
  · intro seg q hq
    exact segOverlaps_pos seg dias q hq
  · intro seg p hfm
    rcases firstMax_spec Prod.fst (segOverlaps seg dias) p hfm with ⟨l₁, l₂, hsplit, hpre, hall⟩
    refine ⟨?_, ⟨l₁, l₂, hsplit, hpre⟩, hall⟩
    rw [chosenLabel_eq_claimLabel]
    simp [claimLabel, hfm]

/-- Concrete diarization list for the C2 witness. -/
def diasEx : List Dia := [(0, 4, "S0"), (3, 10, "S1")]

/-- Concrete transcript segment for the C2 witness. -/
def segW : Seg := { tStart := 0, tEnd := 10, text := "w", speaker := none }

/-- Witness for C2: two overlapping diarization turns; the second has the
larger overlap (7 over 4) and wins. -/
theorem C2_witness :
    (diasEx ≠ []) ∧
    assign_speakers_to_segments [segW] diasEx =
      [segW].map (fun seg => { seg with speaker := some (chosenLabel seg diasEx) }) ∧
    chosenLabel segW diasEx = "S1" := by
  refine ⟨by simp [diasEx], (C2_assign_speakers [segW] diasEx (by simp [diasEx])).1, ?_⟩
  norm_num [chosenLabel, segOverlaps, overlapEntry, List.filterMap_cons, min_def,
    max_def, sortDescBy, insDesc, segW, diasEx]

/-! ## Helper lemmas about saveErrorJS -/

theorem saveErrorJS_error (js : JobState) (m now : String) :
    (saveErrorJS js m now).error = some m := by
  cases hm : js.metadata <;>
    simp [saveErrorJS, updateStageJS, updateStatusJS, hm]

theorem saveErrorJS_metadata_some (js : JobState) (md : Metadata) (m now : String)
    (h : js.metadata = some md) :
    (saveErrorJS js m now).metadata = some ({ md with
      stage := "failed", status := "failed", updated_at := now,
      failed_at := some now }) := by
  simp [saveErrorJS, updateStageJS, updateStatusJS, h, Stage.val, Status.val]

theorem saveErrorJS_metadata_none (js : JobState) (m now : String)
    (h : js.metadata = none) : (saveErrorJS js m now).metadata = none := by
  simp [saveErrorJS, updateStageJS, updateStatusJS, h]

theorem determineStatusState_of_error (js : JobState) (h : js.error.isSome) :
    determineStatusState js = .failed := by
  simp [determineStatusState, h]

/-! ## Scheduler (processing_queue.py, class ProcessingQueue)

The intake queue is a plain FIFO queue.Queue of (priority, job_id) tuples;
running_jobs maps a job id to its Future handle.  A Future handle is
modelled by the phase of its unit of work — pending (submitted, not
started), running, finished, or cancelled — together with whether the
dispatch loop has already registered its done callback (_job_completed via
add_done_callback).  Future.cancel() flips a pending future to cancelled,
then SYNCHRONOUSLY invokes the registered done callbacks before returning
True; on an already-cancelled future it returns True without invoking
anything, and on a running or finished future it returns False.  Methods
are embedded as the transformation they perform under self._lock, a plain
non-reentrant threading.Lock; a callback invoked while the caller holds
that lock re-acquires it and therefore blocks forever, which the embedding
surfaces as an explicit deadlock outcome. -/

/-- Phase of a concurrent.futures.Future handle. -/
inductive FutureSt where
  | pending
  | running
  | finished
  | cancelled
deriving DecidableEq, Repr

/-- A Future handle: its phase and whether the done callback
(_job_completed) has been registered on it. -/
structure FutureH where
  state : FutureSt
  callback : Bool
deriving DecidableEq, Repr

/-- In-flight tracking map (self.running_jobs). -/
abbrev RunningMap := List (String × FutureH)

/-- Lookup of a tracked future. -/
def lookupFuture : RunningMap → String → Option FutureH
  | [], _ => none
  | (k, v) :: rest, id => if k = id then some v else lookupFuture rest id

/-- Removal of a tracked future (del self.running_jobs[job_id]). -/
def removeFuture (rj : RunningMap) (id : String) : RunningMap :=
  rj.filter (fun p => p.1 ≠ id)

/-- In-place mutation of a tracked future object (the map keeps holding the
same object whose state changed). -/
def setFuture : RunningMap → String → FutureH → RunningMap
  | [], _, _ => []
  | (k, v) :: rest, id, f =>
    if k = id then (id, f) :: setFuture rest id f else (k, v) :: setFuture rest id f

/-- Scheduler state: the running flag, the FIFO intake queue of
(priority, job_id) tuples, and the in-flight map. -/
structure SchedState where
  is_running : Bool
  job_queue : List (ℤ × String)
  running_jobs : RunningMap
deriving DecidableEq, Repr

/-- Future.cancel(): (return value, future afterwards, whether the
registered done callbacks were synchronously invoked before returning).
A pending future is flipped to cancelled and the callbacks run; an
already-cancelled future yields True with no callback run; running and
finished futures yield False. -/
def futureCancel : FutureH → Bool × FutureH × Bool
  | ⟨.pending, cb⟩ => (true, ⟨.cancelled, cb⟩, cb)
  | ⟨.running, cb⟩ => (false, ⟨.running, cb⟩, false)
  | ⟨.finished, cb⟩ => (false, ⟨.finished, cb⟩, false)
  | ⟨.cancelled, cb⟩ => (true, ⟨.cancelled, cb⟩, false)

/-- ProcessingQueue.enqueue_job: reject when the scheduler is stopped or the
job id is tracked as running; otherwise append (priority, job_id) to the
FIFO intake queue. -/
def enqueue_job (q : SchedState) (job_id : String) (priority : ℤ) : Bool × SchedState :=
  if !q.is_running then (false, q)
  else if (lookupFuture q.running_jobs job_id).isSome then (false, q)
  else (true, { q with job_queue := q.job_queue ++ [(priority, job_id)] })

/-- Outcome of a cancel_job call: a normal return with the updated state, a
deadlock (the call never returns: a done callback invoked inside
Future.cancel() blocks re-acquiring the self._lock the caller holds), or a
propagated ValueError from save_error. -/
inductive CancelOutcome where
  | returned (b : Bool) (q : SchedState) (st : Store)
  | deadlock (q : SchedState) (st : Store)
  | raised (e : String)
deriving DecidableEq, Repr

/-- ProcessingQueue.cancel_job, executed while holding self._lock: false
when the id is not tracked; otherwise Future.cancel().  When the cancel
succeeds on a future whose done callback is registered, the callback
(_job_completed) runs synchronously inside cancel() and blocks re-acquiring
the non-reentrant lock: the call deadlocks with the future already flipped
to cancelled, the handle still tracked and no error artifact written.  Only
when no callback is registered yet (or the future was already cancelled)
does the source reach the del and save_error lines and return True. -/
def cancel_job (q : SchedState) (st : Store) (job_id : String)
    (now : String) : CancelOutcome :=
  match lookupFuture q.running_jobs job_id with
  | none => .returned false q st
  | some fut =>
    match futureCancel fut with
    | (true, fut1, invoked) =>
      if invoked then
        .deadlock { q with running_jobs := setFuture q.running_jobs job_id fut1 } st
      else
        match save_error st job_id "Job cancelled by user" now with
        | .error e => .raised e
        | .ok st1 =>
          .returned true
            { q with running_jobs := removeFuture q.running_jobs job_id } st1
    | (false, _, _) => .returned false q st

/-- The blocking take of the dispatch loop (self.job_queue.get): queue.Queue
is a plain FIFO queue, so the head of the list is returned whatever the
priority values stored in the tuples. -/
def queue_get (q : List (ℤ × String)) : Option ((ℤ × String) × List (ℤ × String)) :=
  match q with
  | [] => none
  | x :: rest => some (x, rest)

/-! ## Claim C7 -/

/-- C7: enqueue_job returns false exactly when the scheduler is not running
or the job id is in the in-flight map; otherwise it appends (priority,
jobId) to the intake queue and returns true; a rejected call leaves the
whole scheduler state (queue and in-flight map) unchanged, so a duplicate
enqueue of a running job creates no second execution. -/
theorem C7_enqueue_job (q : SchedState) (id : String) (p : ℤ) :
    ((enqueue_job q id p).1 = false ↔
      (q.is_running = false ∨ (lookupFuture q.running_jobs id).isSome)) ∧
    ((enqueue_job q id p).1 = true →
      (enqueue_job q id p).2 = { q with job_queue := q.job_queue ++ [(p, id)] }) ∧
    ((enqueue_job q id p).1 = false → (enqueue_job q id p).2 = q) ∧
    ((lookupFuture q.running_jobs id).isSome → enqueue_job q id p = (false, q)) := by
  by_cases hr : q.is_running
  · by_cases hl : (lookupFuture q.running_jobs id).isSome
    · refine ⟨?_, ?_, ?_, ?_⟩ <;> simp [enqueue_job, hr, hl]
    · refine ⟨?_, ?_, ?_, ?_⟩ <;> simp [enqueue_job, hr, hl]
  · have hr2 : q.is_running = false := by
      cases h : q.is_running
      · rfl
      · exact absurd h hr
    refine ⟨?_, ?_, ?_, ?_⟩ <;> simp [enqueue_job, hr2]

/-- Witness for C7 at a concrete scheduler state in which job j1 is already
running: the duplicate enqueue is rejected and changes nothing. -/
theorem C7_witness :
    (lookupFuture ([("j1", ⟨.running, true⟩)] : RunningMap) "j1").isSome ∧
    enqueue_job ⟨true, [], [("j1", ⟨.running, true⟩)]⟩ "j1" 0 =
      (false, ⟨true, [], [("j1", ⟨.running, true⟩)]⟩) := by
  refine ⟨by simp [lookupFuture], ?_⟩
  exact (C7_enqueue_job ⟨true, [], [("j1", ⟨.running, true⟩)]⟩ "j1" 0).2.2.2
    (by simp [lookupFuture])

/-! ## Claim C6 (cancellation) -/

/-- C6: the claimed success behaviour of cancel_job does not occur on the
code.  In the normal tracked state — a pending future whose done callback
the dispatch loop has already registered (processing_queue.py submits,
tracks, then calls add_done_callback) — cancel_job holds the non-reentrant
self._lock when Future.cancel() flips the future to cancelled and
synchronously invokes _job_completed, which blocks re-acquiring that same
lock: the call deadlocks; the handle is never removed and no error
artifact is written.  Only in the window before add_done_callback runs
does the claimed return-true path (removal plus the cancellation error
artifact) execute, and a running future yields false as claimed.  This
theorem evaluates the three situations at concrete inputs. -/
theorem C6_cancel_deadlock_evaluation :
    cancel_job ⟨true, [], [("j1", ⟨.pending, true⟩)]⟩ [("j1", jsEx)] "j1" "t9" =
      .deadlock ⟨true, [], [("j1", ⟨.cancelled, true⟩)]⟩ [("j1", jsEx)] ∧
    get_error ([("j1", jsEx)] : Store) "j1" = none ∧
    cancel_job ⟨true, [], [("j1", ⟨.pending, false⟩)]⟩ [("j1", jsEx)] "j1" "t9" =
      .returned true ⟨true, [], []⟩
        (setJob [("j1", jsEx)] "j1" (saveErrorJS jsEx "Job cancelled by user" "t9")) ∧
    cancel_job ⟨true, [], [("j1", ⟨.running, true⟩)]⟩ [("j1", jsEx)] "j1" "t9" =
      .returned false ⟨true, [], [("j1", ⟨.running, true⟩)]⟩ [("j1", jsEx)] := by
  refine ⟨rfl, rfl, rfl, rfl⟩

/-! ## Claim C8 (intake ordering) -/

/-- C8: the intake queue the scheduler constructs is queue.Queue, a plain
FIFO queue, so the dispatch loop takes entries in pure insertion order and
the numeric priority stored in the tuples never influences which entry is
taken.  Concretely: with (priority 5, job a) enqueued before (priority 0,
job b), the dispatcher takes job a first even though b carries the lower
(better) priority value, contradicting the claim that the lowest numeric
priority is dispatched first.  FIFO order within equal priority holds,
trivially, because everything is FIFO. -/
theorem C8_fifo_ignores_priority :
    queue_get [((5:ℤ), "a"), ((0:ℤ), "b")] = some (((5:ℤ), "a"), [((0:ℤ), "b")]) ∧
    (0:ℤ) < 5 := by
  exact ⟨rfl, by decide⟩

/-! ## Claim C4 (monotonic terminal failure) -/

/-- Transcription payload used by concrete inputs. -/
def tdEx : TranscriptionData :=
  { text := "hi there", segments := [], language := "en" }

/-- C4: the source does not protect a failed job from later stage writes:
_update_stage overwrites metadata stage unconditionally, so after save_error
has recorded the error artifact and set stage failed, a save_transcription
call silently moves the stage to transcription_complete, and update_stage
can move it anywhere (the derived status stays failed only because the error
artifact is still present).  This theorem evaluates the failing input. -/
theorem C4_unfail_evaluation :
    ∃ st1 st2 : Store,
      save_error [("j1", jsEx)] "j1" "boom" "t1" = .ok st1 ∧
      (get_metadata st1 "j1").map Metadata.stage = some "failed" ∧
      (get_metadata st1 "j1").map Metadata.status = some "failed" ∧
      get_error st1 "j1" = some "boom" ∧
      save_transcription st1 "j1" tdEx "t2" = .ok st2 ∧
      (get_metadata st2 "j1").map Metadata.stage = some "transcription_complete" ∧
      (get_metadata (update_stage st2 "j1" .transcribing "t3") "j1").map
        Metadata.stage = some "transcribing" ∧
      get_error st2 "j1" = some "boom" ∧
      _determine_current_status st2 "j1" = .failed := by
  refine ⟨_, _, rfl, rfl, rfl, rfl, rfl, rfl, rfl, rfl, rfl⟩

/-! ## Claim C10 -/

/-- C10: for a job id whose namespace does not exist, every artifact write
(save_transcription, save_diarization, save_summary, save_error,
update_progress) raises ValueError with the "does not exist" message rather
than returning silently or creating the job, while every read returns
absent. -/
theorem C10_missing_namespace (st : Store) (id : String)
    (hmiss : getJob st id = none) :
    (∀ (d : TranscriptionData) (now : String),
        save_transcription st id d now = .error (noJobMsg id)) ∧
    (∀ (d : DiarizationData) (now : String),
        save_diarization st id d now = .error (noJobMsg id)) ∧
    (∀ (text now : String), save_summary st id text now = .error (noJobMsg id)) ∧
    (∀ (msg now : String), save_error st id msg now = .error (noJobMsg id)) ∧
    (∀ (p : ℚ) (msg now : String),
        update_progress st id p msg now = .error (noJobMsg id)) ∧
    get_metadata st id = none ∧ get_transcription st id = none ∧
    get_diarization st id = none ∧ get_summary st id = none ∧
    get_error st id = none ∧ get_progress st id = none := by
  refine ⟨?_, ?_, ?_, ?_, ?_, ?_, ?_, ?_, ?_, ?_, ?_⟩ <;>
    simp [save_transcription, save_diarization, save_summary, save_error,
      update_progress, get_metadata, get_transcription, get_diarization,
      get_summary, get_error, get_progress, hmiss]

/-- Witness for C10 at the empty store. -/
theorem C10_witness :
    getJob ([] : Store) "ghost" = none ∧
    save_error [] "ghost" "boom" "t0" = .error (noJobMsg "ghost") ∧
    get_metadata ([] : Store) "ghost" = none := by
  refine ⟨rfl, ?_, ?_⟩
  · exact (C10_missing_namespace [] "ghost" rfl).2.2.2.1 "boom" "t0"
  · exact (C10_missing_namespace [] "ghost" rfl).2.2.2.2.2.1

/-! ## Pipeline orchestrator (processor.py, class AudioProcessor)

The processor operates on a single job that exists for the whole run (the
scheduler only hands over ids of existing namespaces and nothing deletes
mid-run in this flow), so its store operations are embedded at the
JobState level, where the ValueError branch of the store wrappers is
unreachable.  Collaborator calls (Whisper load+transcribe, pyannote
diarize, OpenAI summarize) are opaque oracles that either raise or return a
value; an exception in flight carries the job state at the raise point,
mirroring Python side effects that have already happened when an exception
propagates. -/

/-- Results of the collaborator calls and the credential environment for one
run.  hfToken and openaiKeyEnv are none for an unset variable; the empty
string is falsy in the source's checks and is handled by strTruthy.
summarizerCache is the AudioProcessor instance state entering the run: some
key when self.summarizer is already constructed and self._summarizer_key
holds that key, none for a fresh processor (summarizer is None); the
summarization stage rebuilds the summarizer whenever this differs from the
key derived from the current options.  (The write-back of _summarizer_key
after a successful construction only matters to later jobs on the same
processor and is not needed by any claim.) -/
structure Oracle where
  hfToken : Option String
  openaiKeyEnv : Option String
  transcribeResult : Except String TranscriptionData
  diarizeResult : Except String (Option (List Dia))
  summarizeResult : Except String (Option String)
  summarizerCache : Option String := none

/-- Python str.strip() as used by the empty-transcript check: drop leading
and trailing whitespace characters. -/
def pyStrip (s : String) : String :=
  String.mk (List.reverse (List.dropWhile Char.isWhitespace
    (List.reverse (List.dropWhile Char.isWhitespace s.data))))

/-- Python truthiness of an optional string. -/
def strTruthy (o : Option String) : Bool :=
  match o with
  | none => false
  | some s => !s.isEmpty

/-- options.get("llm_api_key") or os.getenv("OPENAI_API_KEY") is truthy. -/
def hasOpenaiKey (opts : Options) (o : Oracle) : Bool :=
  strTruthy opts.llm_api_key || strTruthy o.openaiKeyEnv

/-- llm_model = options.get("llm_model") or options.get("summary_model") or
"gpt-4o-mini". -/
def effectiveLlmModel (opts : Options) : String :=
  if strTruthy opts.llm_model then opts.llm_model.getD ""
  else if strTruthy opts.summary_model then opts.summary_model.getD ""
  else "gpt-4o-mini"

/-- summarizer_key, the f-string joining the model and the base url (or the
word default when the url is falsy) with an underscore. -/
def summarizerKey (opts : Options) : String :=
  effectiveLlmModel opts ++ "_" ++
    (if strTruthy opts.llm_api_base_url then opts.llm_api_base_url.getD ""
     else "default")

/-- str of the TypeError raised by the call
MeetingSummarizer(api_key=..., model=..., base_url=...): the constructor of
MeetingSummarizer (summarizer.py) accepts only api_key and model, so the
base_url keyword is rejected.  The Python message quotes the keyword name;
this constant stands for that message. -/
def baseUrlTypeError : String :=
  "MeetingSummarizer.__init__() got an unexpected keyword argument base_url"

/-- Outcome of a processor step: normal return or an exception in flight,
carrying the state at the raise point. -/
abbrev PStep := Except (String × JobState) JobState

/-- AudioProcessor._process_transcription: stage to transcribing, progress
10 and 20, invoke the transcriber (raises propagate), save the artifact
(advancing the stage to transcription_complete), progress 40. -/
def processTranscription (js : JobState) (o : Oracle) (now : String) : PStep :=
  let js1 := updateStagePublicJS js .transcribing now
  let js2 := updateProgressJS js1 10 "Starting transcription..." now
  let js3 := updateProgressJS js2 20 "Transcribing audio..." now
  match o.transcribeResult with
  | .error e => .error (e, js3)
  | .ok td =>
    let js4 := saveTranscriptionJS js3 td now
    .ok (updateProgressJS js4 40 "Transcription completed" now)

/-- Body of the try block of _process_diarization: diarize (raises
propagate to the handler), then on a truthy result merge speakers over the
transcription segments and save; a falsy result or missing transcription
only logs. -/
def diarizationTry (js : JobState) (o : Oracle) (now : String) : PStep :=
  match o.diarizeResult with
  | .error e => .error (e, js)
  | .ok none => .ok (updateProgressJS js 70 "Diarization completed (no speakers found)" now)
  | .ok (some []) => .ok (updateProgressJS js 70 "Diarization completed (no speakers found)" now)
  | .ok (some (d :: ds)) =>
    match js.transcription with
    | none => .ok js
    | some td =>
      let sws := assign_speakers_to_segments td.segments (d :: ds)
      let js1 := saveDiarizationJS js
        { segments_with_speakers := sws, speaker_segments := d :: ds } now
      .ok (updateProgressJS js1 70 "Diarization completed" now)

/-- AudioProcessor._process_diarization: stage to diarizing, progress 50;
without a HuggingFace token skip with a progress note; otherwise progress 60
and run the try block, turning any exception into the progress note
"Diarization failed: ..." — never into an error artifact. -/
def processDiarization (js : JobState) (o : Oracle) (now : String) : PStep :=
  let js1 := updateStagePublicJS js .diarizing now
  let js2 := updateProgressJS js1 50 "Starting diarization..." now
  if !(strTruthy o.hfToken) then
    .ok (updateProgressJS js2 70 "Diarization skipped (no token)" now)
  else
    let js3 := updateProgressJS js2 60 "Performing speaker diarization..." now
    match diarizationTry js3 o now with
    | .ok js4 => .ok js4
    | .error (e, js4) => .ok (updateProgressJS js4 70 ("Diarization failed: " ++ e) now)

/-- Body of the try block of _process_summarization: summarize (raises
propagate to the handler); a truthy summary is saved (stage complete,
status completed), a falsy one resolves to complete with a progress note. -/
def summarizationTry (js : JobState) (o : Oracle) (now : String) : PStep :=
  match o.summarizeResult with
  | .error e => .error (e, js)
  | .ok summ =>
    if strTruthy summ then
      let js1 := saveSummaryJS js (summ.getD "") now
      .ok (updateProgressJS js1 100 "Processing complete" now)
    else
      let js1 := updateProgressJS js 100 "Summarization completed (empty result)" now
      .ok (updateStagePublicJS js1 .complete now)

/-- AudioProcessor._process_summarization: stage to summarizing, progress
80; missing transcription only logs and returns; empty transcript or
missing API key skip and advance to complete; then the summarizer is
(re)constructed when the instance cache misses the current key — with a
truthy llm_api_base_url this constructor call passes a base_url keyword
that MeetingSummarizer rejects, and the TypeError propagates uncaught (the
try begins only at the summarize call); otherwise progress 90 and the try
block, whose exceptions become the progress note
"Summarization failed: ..." followed by an advance to complete. -/
def processSummarization (js : JobState) (opts : Options) (o : Oracle)
    (now : String) : PStep :=
  let js1 := updateStagePublicJS js .summarizing now
  let js2 := updateProgressJS js1 80 "Starting summarization..." now
  match js2.transcription with
  | none => .ok js2
  | some td =>
    if pyStrip td.text = "" then
      let js3 := updateProgressJS js2 100 "Summarization skipped (empty transcript)" now
      .ok (updateStagePublicJS js3 .complete now)
    else if !(hasOpenaiKey opts o) then
      let js3 := updateProgressJS js2 100 "Summarization skipped (no API key)" now
      .ok (updateStagePublicJS js3 .complete now)
    else if o.summarizerCache ≠ some (summarizerKey opts) ∧
        strTruthy opts.llm_api_base_url = true then
      .error (baseUrlTypeError, js2)
    else
      let js3 := updateProgressJS js2 90 "Generating summary..." now
      match summarizationTry js3 o now with
      | .ok js4 => .ok js4
      | .error (e, js4) =>
        let js5 := updateProgressJS js4 100 ("Summarization failed: " ++ e) now
        .ok (updateStagePublicJS js5 .complete now)

/-- Try body of AudioProcessor.process_audio_file: transcription, then the
optional stages gated by the toggles (default true), then the explicit
advance to complete when no summary was requested. -/
def processTryBody (js : JobState) (opts : Options) (o : Oracle) (now : String) : PStep :=
  match processTranscription js o now with
  | .error r => .error r
  | .ok js1 =>
    match (if opts.enable_diarization.getD true then processDiarization js1 o now
           else .ok js1) with
    | .error r => .error r
    | .ok js2 =>
      match (if opts.enable_summarization.getD true
             then processSummarization js2 opts o now else .ok js2) with
      | .error r => .error r
      | .ok js3 =>
        if !(opts.enable_summarization.getD true) then
          .ok (updateStagePublicJS js3 .complete now)
        else .ok js3

/-- AudioProcessor.process_audio_file: any exception escaping the stages is
recorded through save_error and re-raised. -/
def process_audio_file (js : JobState) (opts : Options) (o : Oracle)
    (now : String) : PStep :=
  match processTryBody js opts o now with
  | .ok js1 => .ok js1
  | .error (e, js1) => .error (e, saveErrorJS js1 e now)

/-- ProcessingQueue._process_job: stage to not_started, check metadata and
audio (raising ValueError when missing), run the pipeline; any exception is
recorded through save_error and re-raised to the Future. -/
def _process_job (id : String) (js : JobState) (o : Oracle) (now : String) : PStep :=
  let js1 := updateStagePublicJS js .not_started now
  let body : PStep :=
    match js1.metadata with
    | none => .error ("Job " ++ id ++ " metadata not found", js1)
    | some md =>
      if !js1.audio then .error ("Audio file not found for job " ++ id, js1)
      else process_audio_file js1 md.options o now
  match body with
  | .ok js2 => .ok js2
  | .error (e, js2) => .error (e, saveErrorJS js2 e now)

/-- ProcessingQueue._job_completed: the done-callback of the Future; an
exception captured by the Future is persisted through save_error and goes
no further. -/
def job_completed (res : PStep) (now : String) : JobState :=
  match res with
  | .ok js => js
  | .error (e, js) => saveErrorJS js e now

/-- One dispatched job end to end: the worker runs _process_job, the Future
captures the outcome, the done-callback persists a failure.  A total
function: no exception escapes the pool boundary. -/
def runDispatchedJob (id : String) (js : JobState) (o : Oracle)
    (now : String) : JobState :=
  job_completed (_process_job id js o now) now

/-! ## Claim C9 -/

/-- C9: with enable_diarization and enable_summarization both false, a job
whose transcription succeeds is explicitly advanced to stage complete with
status completed, and no diarization or summary artifact exists. -/
theorem C9_no_optional_stages (js : JobState) (md : Metadata) (td : TranscriptionData)
    (o : Oracle) (now : String)
    (hmd : js.metadata = some md)
    (hdi : md.options.enable_diarization = some false)
    (hsu : md.options.enable_summarization = some false)
    (htr : o.transcribeResult = .ok td)
    (hdia0 : js.diarization = none) (hsum0 : js.summary = none) :
    (process_audio_file js md.options o now).map (fun js' =>
        (js'.metadata.map Metadata.stage, js'.metadata.map Metadata.status,
         js'.diarization, js'.summary, js'.transcription)) =
      .ok (some "complete", some "completed", none, none, some td) := by
  simp [process_audio_file, processTryBody, processTranscription,
    updateStagePublicJS, updateStageJS, updateStatusJS, updateProgressJS,
    updateTimestampJS, saveTranscriptionJS, htr, hdi, hsu, hmd, hdia0, hsum0,
    Stage.val, Status.val, Except.map]

/-! ## Claim C3: helper lemmas -/

/-- State after a successful transcription stage. -/
def postTranscription (js : JobState) (td : TranscriptionData) (now : String) : JobState :=
  updateProgressJS (saveTranscriptionJS (updateProgressJS (updateProgressJS
    (updateStagePublicJS js .transcribing now) 10 "Starting transcription..." now)
    20 "Transcribing audio..." now) td now) 40 "Transcription completed" now

theorem processTranscription_ok (js : JobState) (td : TranscriptionData)
    (o : Oracle) (now : String) (htr : o.transcribeResult = .ok td) :
    processTranscription js o now = .ok (postTranscription js td now) := by
  simp [processTranscription, postTranscription, htr]

theorem postTranscription_eq (js : JobState) (md : Metadata) (td : TranscriptionData)
    (now : String) (hmd : js.metadata = some md) :
    postTranscription js td now = { js with
      metadata := some ({ md with
        stage := "transcription_complete"
        status := "processing"
        updated_at := now })
      transcription := some td
      progress := some ⟨40, "Transcription completed", now⟩ } := by
  simp [postTranscription, updateStagePublicJS, updateStageJS, updateStatusJS,
    updateProgressJS, updateTimestampJS, saveTranscriptionJS, hmd,
    Stage.val, Status.val]

theorem processDiarization_softfail (js : JobState) (md : Metadata) (o : Oracle)
    (now e : String) (hmd : js.metadata = some md)
    (htok : strTruthy o.hfToken = true) (hdr : o.diarizeResult = .error e) :
    processDiarization js o now = .ok ({ js with
      metadata := some ({ md with
        stage := "diarizing"
        status := "processing"
        updated_at := now })
      progress := some ⟨70, "Diarization failed: " ++ e, now⟩ }) := by
  simp [processDiarization, diarizationTry, htok, hdr, updateStagePublicJS,
    updateStageJS, updateStatusJS, updateProgressJS, updateTimestampJS, hmd,
    Stage.val, Status.val]

/-- The diarization stage never raises and never touches the error artifact,
the transcription artifact, or the presence of metadata. -/
theorem processDiarization_total (js : JobState) (md : Metadata) (o : Oracle)
    (now : String) (hmd : js.metadata = some md) :
    (processDiarization js o now).map
        (fun js2 => (js2.error, js2.transcription, js2.metadata.isSome)) =
      .ok (js.error, js.transcription, true) := by
  cases htok : strTruthy o.hfToken with
  | false =>
    simp [processDiarization, htok, updateStagePublicJS, updateStageJS,
      updateStatusJS, updateProgressJS, updateTimestampJS, hmd, Except.map]
  | true =>
    cases hdr : o.diarizeResult with
    | error e =>
      simp [processDiarization, diarizationTry, htok, hdr, updateStagePublicJS,
        updateStageJS, updateStatusJS, updateProgressJS, updateTimestampJS, hmd,
        Except.map]
    | ok v =>
      match v with
      | none =>
        simp [processDiarization, diarizationTry, htok, hdr, updateStagePublicJS,
          updateStageJS, updateStatusJS, updateProgressJS, updateTimestampJS, hmd,
          Except.map]
      | some [] =>
        simp [processDiarization, diarizationTry, htok, hdr, updateStagePublicJS,
          updateStageJS, updateStatusJS, updateProgressJS, updateTimestampJS, hmd,
          Except.map]
      | some (d :: ds) =>
        cases htrn : js.transcription with
        | none =>
          simp [processDiarization, diarizationTry, htok, hdr, htrn,
            updateStagePublicJS, updateStageJS, updateStatusJS, updateProgressJS,
            updateTimestampJS, hmd, Except.map]
        | some td =>
          simp [processDiarization, diarizationTry, htok, hdr, htrn,
            updateStagePublicJS, updateStageJS, updateStatusJS, updateProgressJS,
            updateTimestampJS, saveDiarizationJS, hmd, Stage.val, Status.val,
            Except.map]

/-- The summarization stage, reached with a transcription present, never
raises, always resolves the job to stage complete and status completed, and
never touches the error artifact. -/
theorem processSummarization_completes (js : JobState) (md : Metadata)
    (td : TranscriptionData) (opts : Options) (o : Oracle) (now : String)
    (hmd : js.metadata = some md) (htrn : js.transcription = some td)
    (hsafe : o.summarizerCache = some (summarizerKey opts) ∨
      strTruthy opts.llm_api_base_url = false) :
    (processSummarization js opts o now).map (fun js3 =>
        (js3.metadata.map Metadata.stage, js3.metadata.map Metadata.status,
         js3.error)) =
      .ok (some "complete", some "completed", js.error) := by
  have hnotr : ¬(o.summarizerCache ≠ some (summarizerKey opts) ∧
      strTruthy opts.llm_api_base_url = true) := by
    rcases hsafe with h | h
    · exact fun hc => hc.1 h
    · exact fun hc => by rw [h] at hc; cases hc.2
  by_cases h1 : pyStrip td.text = ""
  · simp [processSummarization, updateStagePublicJS, updateStageJS,
      updateStatusJS, updateProgressJS, updateTimestampJS, hmd, htrn, h1,
      Stage.val, Status.val, Except.map]
  · cases hk : hasOpenaiKey opts o with
    | false =>
      simp [processSummarization, updateStagePublicJS, updateStageJS,
        updateStatusJS, updateProgressJS, updateTimestampJS, hmd, htrn, h1, hk,
        Stage.val, Status.val, Except.map]
    | true =>
      cases hsr : o.summarizeResult with
      | error e =>
        simp [processSummarization, summarizationTry, updateStagePublicJS,
          updateStageJS, updateStatusJS, updateProgressJS, updateTimestampJS,
          hmd, htrn, h1, hk, hsr, hnotr, Stage.val, Status.val, Except.map]
      | ok summ =>
        cases hst : strTruthy summ with
        | false =>
          simp [processSummarization, summarizationTry, updateStagePublicJS,
            updateStageJS, updateStatusJS, updateProgressJS, updateTimestampJS,
            hmd, htrn, h1, hk, hsr, hst, hnotr, Stage.val, Status.val, Except.map]
        | true =>
          simp [processSummarization, summarizationTry, updateStagePublicJS,
            updateStageJS, updateStatusJS, updateProgressJS, updateTimestampJS,
            saveSummaryJS, hmd, htrn, h1, hk, hsr, hst, hnotr, Stage.val, Status.val,
            Except.map]

/-- A summarization collaborator failure is caught: the stage resolves to
complete and completed, the failure is recorded as the final progress
message, and the error artifact is untouched. -/
theorem processSummarization_softfail (js : JobState) (md : Metadata)
    (td : TranscriptionData) (opts : Options) (o : Oracle) (now e : String)
    (hmd : js.metadata = some md) (htrn : js.transcription = some td)
    (h1 : pyStrip td.text ≠ "") (hk : hasOpenaiKey opts o = true)
    (hsafe : o.summarizerCache = some (summarizerKey opts) ∨
      strTruthy opts.llm_api_base_url = false)
    (hsr : o.summarizeResult = .error e) :
    (processSummarization js opts o now).map (fun js3 =>
        (js3.metadata.map Metadata.stage, js3.metadata.map Metadata.status,
         js3.error, js3.progress)) =
      .ok (some "complete", some "completed", js.error,
        some ⟨100, "Summarization failed: " ++ e, now⟩) := by
  have hnotr : ¬(o.summarizerCache ≠ some (summarizerKey opts) ∧
      strTruthy opts.llm_api_base_url = true) := by
    rcases hsafe with h | h
    · exact fun hc => hc.1 h
    · exact fun hc => by rw [h] at hc; cases hc.2
  simp [processSummarization, summarizationTry, updateStagePublicJS,
    updateStageJS, updateStatusJS, updateProgressJS, updateTimestampJS,
    hmd, htrn, h1, hk, hsr, hnotr, Stage.val, Status.val, Except.map]

/-! ## Claim C3 -/

/-- C3 (amended): provided the summarization stage does not have to
construct the summarizer with a truthy llm_api_base_url (the instance cache
already matches the options key, or no custom base url is set), an
exception raised by the diarization stage or by the summarize call of the
summarization stage during process_audio_file is caught inside that stage
and recorded only as a progress message through update_progress, never
through save_error (the error artifact stays absent), and the job still
reaches stage complete with status completed.  In the excluded case the
constructor call rejects the base_url keyword outside the try block and the
TypeError escapes the stage (see the counterexample). -/
theorem C3_soft_stage_failures (js : JobState) (md : Metadata) (td : TranscriptionData)
    (o : Oracle) (now e : String)
    (hmd : js.metadata = some md) (herr0 : js.error = none)
    (htr : o.transcribeResult = .ok td)
    (hsafe : o.summarizerCache = some (summarizerKey md.options) ∨
      strTruthy md.options.llm_api_base_url = false) :
    (md.options.enable_diarization.getD true = true →
      strTruthy o.hfToken = true → o.diarizeResult = .error e →
      ((processDiarization (postTranscription js td now) o now).map (fun jsD =>
          (jsD.progress, jsD.error)) =
        .ok (some ⟨70, "Diarization failed: " ++ e, now⟩, none)) ∧
      ∃ js3, process_audio_file js md.options o now = .ok js3 ∧
        js3.error = none ∧ js3.metadata.map Metadata.stage = some "complete" ∧
        js3.metadata.map Metadata.status = some "completed") ∧
    (md.options.enable_summarization.getD true = true → pyStrip td.text ≠ "" →
      hasOpenaiKey md.options o = true → o.summarizeResult = .error e →
      ∃ js3, process_audio_file js md.options o now = .ok js3 ∧
        js3.error = none ∧ js3.metadata.map Metadata.stage = some "complete" ∧
        js3.metadata.map Metadata.status = some "completed" ∧
        js3.progress = some ⟨100, "Summarization failed: " ++ e, now⟩) := by
  have hTeq := postTranscription_eq js md td now hmd
  have hTmd : (postTranscription js td now).metadata =
      some ({ md with
        stage := "transcription_complete"
        status := "processing"
        updated_at := now }) := by
    rw [hTeq]
  have hTerr : (postTranscription js td now).error = none := by
    rw [hTeq]
    exact herr0
  have hTtr : (postTranscription js td now).transcription = some td := by
    rw [hTeq]
  have htrOk := processTranscription_ok js td o now htr
  have hdt := processDiarization_total (postTranscription js td now)
    ({ md with
      stage := "transcription_complete"
      status := "processing"
      updated_at := now }) o now hTmd
  constructor
  · intro hdi htok hdr
    have hdia := processDiarization_softfail (postTranscription js td now)
      ({ md with
        stage := "transcription_complete"
        status := "processing"
        updated_at := now }) o now e hTmd htok hdr
    constructor
    · rw [hdia]
      simp [Except.map, hTerr]
    · cases hpd : processDiarization (postTranscription js td now) o now with
      | error r =>
        rw [hpd] at hdia
        cases hdia
      | ok js2 =>
        rw [hpd] at hdt
        simp only [Except.map] at hdt
        have hdfields := Except.ok.inj hdt
        have h2err : js2.error = none := by
          have hx := congrArg (fun t => t.1) hdfields
          simp at hx
          rw [hx, hTerr]
        have h2tr : js2.transcription = some td := by
          have hx := congrArg (fun t => t.2.1) hdfields
          simp at hx
          rw [hx, hTtr]
        have h2md : js2.metadata.isSome := by
          have hx := congrArg (fun t => t.2.2) hdfields
          simpa using hx
        obtain ⟨md2, h2mdeq⟩ := Option.isSome_iff_exists.mp h2md
        simp only [process_audio_file, processTryBody, htrOk, hdi, if_true, hpd]
        cases hsu : md.options.enable_summarization.getD true with
        | true =>
          have hsc := processSummarization_completes js2 md2 td md.options o now
            h2mdeq h2tr hsafe
          cases hps : processSummarization js2 md.options o now with
          | error r =>
            rw [hps] at hsc
            simp [Except.map] at hsc
          | ok js3 =>
            rw [hps] at hsc
            simp only [Except.map] at hsc
            have hfields := Except.ok.inj hsc
            refine ⟨js3, by simp, ?_, ?_, ?_⟩
            · have hx := congrArg (fun t => t.2.2) hfields
              simp at hx
              rw [hx, h2err]
            · have hx := congrArg (fun t => t.1) hfields
              simpa using hx
            · have hx := congrArg (fun t => t.2.1) hfields
              simpa using hx
        | false =>
          refine ⟨updateStagePublicJS js2 .complete now, by simp, ?_, ?_, ?_⟩
          · simp [updateStagePublicJS, updateStageJS, updateStatusJS, h2mdeq, h2err]
          · simp [updateStagePublicJS, updateStageJS, updateStatusJS, h2mdeq,
              Stage.val, Status.val]
          · simp [updateStagePublicJS, updateStageJS, updateStatusJS, h2mdeq,
              Stage.val, Status.val]
  · intro hsu h1 hk hsr
    simp only [process_audio_file, processTryBody, htrOk]
    cases hdi : md.options.enable_diarization.getD true with
    | false =>
      have hsf := processSummarization_softfail (postTranscription js td now)
        ({ md with
          stage := "transcription_complete"
          status := "processing"
          updated_at := now }) td md.options o now e hTmd hTtr h1 hk hsafe hsr
      cases hps : processSummarization (postTranscription js td now) md.options o now with
      | error r =>
        rw [hps] at hsf
        simp [Except.map] at hsf
      | ok js3 =>
        rw [hps] at hsf
        simp only [Except.map] at hsf
        have hfields := Except.ok.inj hsf
        refine ⟨js3, by simp [hps, hsu], ?_, ?_, ?_, ?_⟩
        · have hx := congrArg (fun t => t.2.2.1) hfields
          simp at hx
          rw [hx, hTerr]
        · have hx := congrArg (fun t => t.1) hfields
          simpa using hx
        · have hx := congrArg (fun t => t.2.1) hfields
          simpa using hx
        · have hx := congrArg (fun t => t.2.2.2) hfields
          simpa using hx
    | true =>
      cases hpd : processDiarization (postTranscription js td now) o now with
      | error r =>
        rw [hpd] at hdt
        simp [Except.map] at hdt
      | ok js2 =>
        rw [hpd] at hdt
        simp only [Except.map] at hdt
        have hdfields := Except.ok.inj hdt
        have h2err : js2.error = none := by
          have hx := congrArg (fun t => t.1) hdfields
          simp at hx
          rw [hx, hTerr]
        have h2tr : js2.transcription = some td := by
          have hx := congrArg (fun t => t.2.1) hdfields
          simp at hx
          rw [hx, hTtr]
        have h2md : js2.metadata.isSome := by
          have hx := congrArg (fun t => t.2.2) hdfields
          simpa using hx
        obtain ⟨md2, h2mdeq⟩ := Option.isSome_iff_exists.mp h2md
        have hsf := processSummarization_softfail js2 md2 td md.options o now e
          h2mdeq h2tr h1 hk hsafe hsr
        cases hps : processSummarization js2 md.options o now with
        | error r =>
          rw [hps] at hsf
          simp [Except.map] at hsf
        | ok js3 =>
          rw [hps] at hsf
          simp only [Except.map] at hsf
          have hfields := Except.ok.inj hsf
          refine ⟨js3, by simp [hps, hsu], ?_, ?_, ?_, ?_⟩
          · have hx := congrArg (fun t => t.2.2.1) hfields
            simp at hx
            rw [hx, h2err]
          · have hx := congrArg (fun t => t.1) hfields
            simpa using hx
          · have hx := congrArg (fun t => t.2.1) hfields
            simpa using hx
          · have hx := congrArg (fun t => t.2.2.2) hfields
            simpa using hx

/-- Metadata whose options set a custom LLM endpoint, for the C3
counterexample (llm_api_key present so the stage reaches the summarizer
construction). -/
def mdExB : Metadata :=
  { mdEx with options :=
      { llm_api_key := some "k",
        llm_api_base_url := some "http://llm.internal:8080/v1" } }

/-- Namespace state for the C3 counterexample. -/
def jsExB : JobState := { metadata := some mdExB, audio := true }

/-- Oracle for the C3 counterexample: transcription succeeds, no HuggingFace
token (diarization skipped), fresh processor (summarizer cache empty); the
summarize oracle is never reached. -/
def oExB : Oracle :=
  { hfToken := none, openaiKeyEnv := none, transcribeResult := .ok tdEx,
    diarizeResult := .ok none, summarizeResult := .ok none }

/-- C3 counterexample: with llm_api_base_url set in the options, the
summarization stage raises the base_url TypeError at the summarizer
construction, outside its try block: the exception escapes the stage,
process_audio_file records it through save_error and re-raises, the error
artifact holds the message, the stage and status become failed, and the
dispatched job ends failed — against the claim that a summarization-stage
exception is caught in-stage, recorded only as progress, and the job
completes. -/
theorem C3_base_url_counterexample :
    ∃ js1, process_audio_file jsExB mdExB.options oExB "t7" =
        .error (baseUrlTypeError, js1) ∧
      js1.error = some baseUrlTypeError ∧
      js1.metadata.map Metadata.stage = some "failed" ∧
      js1.metadata.map Metadata.status = some "failed" ∧
      (runDispatchedJob "j1" jsExB oExB "t7").error = some baseUrlTypeError ∧
      determineStatusState (runDispatchedJob "j1" jsExB oExB "t7") = .failed := by
  refine ⟨_, rfl, ?_, ?_, ?_, ?_, ?_⟩ <;> rfl

/-- Oracle for the C3 witness: diarization collaborator raises. -/
def oEx3 : Oracle :=
  { hfToken := some "tok", openaiKeyEnv := none, transcribeResult := .ok tdEx,
    diarizeResult := .error "boom-diar", summarizeResult := .ok none }

/-- Witness for C3: default options, token present, diarizer raises; the
job still completes with no error artifact. -/
theorem C3_witness :
    jsEx.metadata = some mdEx ∧ jsEx.error = none ∧
    oEx3.transcribeResult = .ok tdEx ∧
    ∃ js3, process_audio_file jsEx mdEx.options oEx3 "t5" = .ok js3 ∧
      js3.error = none ∧ js3.metadata.map Metadata.stage = some "complete" ∧
      js3.metadata.map Metadata.status = some "completed" := by
  refine ⟨rfl, rfl, rfl, ?_⟩
  exact ((C3_soft_stage_failures jsEx mdEx tdEx oEx3 "t5" "boom-diar"
    rfl rfl rfl (Or.inr rfl)).1 rfl (by decide) rfl).2

/-! ## Claim C5 -/

/-- C5: a dispatched job whose execution raises ends with an error artifact
holding the exception message and terminal status failed; runDispatchedJob
is a total function (the Future captures the exception and the done
callback persists it), so nothing propagates past the pool boundary or can
crash the dispatch loop.  The last conjunct instantiates the fatal
transcription failure: it is recorded through save_error and re-raised to
the scheduler. -/
theorem C5_dispatched_failure (id : String) (js : JobState) (o : Oracle)
    (now e : String) (js1 : JobState)
    (hfail : _process_job id js o now = .error (e, js1)) :
    runDispatchedJob id js o now = saveErrorJS js1 e now ∧
    (runDispatchedJob id js o now).error = some e ∧
    determineStatusState (runDispatchedJob id js o now) = .failed ∧
    (∀ m, js1.metadata = some m →
      (runDispatchedJob id js o now).metadata.map Metadata.status = some "failed" ∧
      (runDispatchedJob id js o now).metadata.map Metadata.stage = some "failed") ∧
    (∀ (e0 : String) (md : Metadata), js.metadata = some md → js.audio = true →
      o.transcribeResult = .error e0 →
      ∃ js2, _process_job id js o now = .error (e0, js2) ∧ js2.error = some e0) := by
  have h1 : runDispatchedJob id js o now = saveErrorJS js1 e now := by
    simp [runDispatchedJob, job_completed, hfail]
  refine ⟨h1, ?_, ?_, ?_, ?_⟩
  · rw [h1]
    exact saveErrorJS_error js1 e now
  · rw [h1]
    exact determineStatusState_of_error _ (by rw [saveErrorJS_error]; rfl)
  · intro m hm
    rw [h1, saveErrorJS_metadata_some js1 m e now hm]
    exact ⟨rfl, rfl⟩
  · intro e0 md hmd haud htrr
    simp only [_process_job, process_audio_file, processTryBody,
      processTranscription, updateStagePublicJS, updateStageJS,
      updateProgressJS, updateTimestampJS, htrr, hmd, haud]
    simp [saveErrorJS_error]

/-- Oracle for the C5 witness: the transcriber raises. -/
def oEx5 : Oracle :=
  { hfToken := none, openaiKeyEnv := none, transcribeResult := .error "no cuda",
    diarizeResult := .ok none, summarizeResult := .ok none }

/-- Witness for C5: a concrete job whose transcription raises; the error
artifact carries the message and the derived status is failed. -/
theorem C5_witness :
    ∃ js1, _process_job "j1" jsEx oEx5 "t6" = .error ("no cuda", js1) ∧
      (runDispatchedJob "j1" jsEx oEx5 "t6").error = some "no cuda" ∧
      determineStatusState (runDispatchedJob "j1" jsEx oEx5 "t6") = .failed := by
  have hf : ∃ js1, _process_job "j1" jsEx oEx5 "t6" = .error ("no cuda", js1) :=
    ⟨_, rfl⟩
  obtain ⟨js1, hf1⟩ := hf
  have h := C5_dispatched_failure "j1" jsEx oEx5 "t6" "no cuda" js1 hf1
  exact ⟨js1, hf1, h.2.1, h.2.2.1⟩

/-- Metadata with both optional stages disabled, for the C9 witness. -/
def mdEx9 : Metadata :=
  { mdEx with options :=
      { enable_diarization := some false, enable_summarization := some false } }

/-- Namespace state for the C9 witness. -/
def jsEx9 : JobState := { metadata := some mdEx9, audio := true }

/-- Oracle for the C9 witness. -/
def oEx9 : Oracle :=
  { hfToken := none, openaiKeyEnv := none, transcribeResult := .ok tdEx,
    diarizeResult := .ok none, summarizeResult := .ok none }

/-- Witness for C9 at a concrete job with both optional stages disabled. -/
theorem C9_witness :
    jsEx9.metadata = some mdEx9 ∧
    mdEx9.options.enable_diarization = some false ∧
    (process_audio_file jsEx9 mdEx9.options oEx9 "t4").map (fun js3 =>
        (js3.metadata.map Metadata.stage, js3.metadata.map Metadata.status,
         js3.diarization, js3.summary, js3.transcription)) =
      .ok (some "complete", some "completed", none, none, some tdEx) := by
  refine ⟨rfl, rfl, ?_⟩
  exact C9_no_optional_stages jsEx9 mdEx9 tdEx oEx9 "t4" rfl rfl rfl rfl rfl rfl
